import Mathlib

/-!
# verity.go: superblock overlay, table construction and activation

A shallow embedding of `verity.go` (package `verity`).

* A Go `byte` is a `Fin 256`; a Go `string` and a Go `[]byte` are lists of bytes
  (Go strings are byte sequences, and `string(buff)` keeps the bytes as they are).
* `uint16`, `uint32` and `uint64` values are natural numbers, reduced `% 2^w`
  where the Go arithmetic can wrap.
* The file system, the byte order of the host and the device-mapper are the
  environment (`World`); `Open` returns the create requests it issued together
  with the way it ended (a returned `error` value, or a run-time panic).
-/

namespace Verity

set_option maxRecDepth 100000

/-! ## Bytes and strings -/

/-- Go `byte`. -/
abbrev Byte := Fin 256

/-- Go `string`: a sequence of bytes. -/
abbrev GoString := List Byte

/-- The bytes of an ASCII literal of the source. -/
def lit (s : String) : GoString :=
  s.toList.map (fun c => Fin.ofNat c.toNat)

/-- Source constant `signature = "verity\x00\x00"`. -/
def signature : GoString :=
  lit "verity" ++ [0, 0]

/-! ## Library functions used by the source -/

/-- Go `bytes.IndexByte`: index of the first `c` in `b`, or `-1`. -/
def IndexByte : List Byte → Byte → Int
  | [], _ => -1
  | x :: xs, c =>
    if x = c then 0
    else
      let i := IndexByte xs c
      if i = -1 then -1 else i + 1

/-- Go `bytes.Compare`: lexicographic comparison, `-1`, `0` or `1`. -/
def Compare : List Byte → List Byte → Int
  | [], [] => 0
  | [], _ :: _ => -1
  | _ :: _, [] => 1
  | a :: as, b :: bs =>
    if a < b then -1 else if b < a then 1 else Compare as bs

/-- Table `hextable = "0123456789abcdef"` of Go `encoding/hex`. -/
def hextable : GoString :=
  lit "0123456789abcdef"

/-- Go `hex.EncodeToString`: two characters per byte, high nibble first. -/
def EncodeToString (src : List Byte) : GoString :=
  src.flatMap (fun v => [hextable.getD (v.val / 16) 0, hextable.getD (v.val % 16) 0])

/-- Go `encoding/hex` `fromHexChar`: the value of one hexadecimal character. -/
def fromHexChar (c : Byte) : Option Nat :=
  if 48 ≤ c.val ∧ c.val ≤ 57 then some (c.val - 48)
  else if 97 ≤ c.val ∧ c.val ≤ 102 then some (c.val - 97 + 10)
  else if 65 ≤ c.val ∧ c.val ≤ 70 then some (c.val - 65 + 10)
  else none

/-- Go `hex.DecodeString`: `none` stands for `ErrLength` or `InvalidByteError`. -/
def DecodeString : GoString → Option (List Byte)
  | [] => some []
  | [_] => none
  | p :: q :: rest =>
    match fromHexChar p, fromHexChar q, DecodeString rest with
    | some a, some b, some tl => some (Fin.ofNat (a * 16 + b) :: tl)
    | _, _, _ => none

/-! ## The source's own helper -/

/-- Source `fixedArrayToString`. -/
def fixedArrayToString (buff : List Byte) : GoString :=
  let idx := IndexByte buff 0
  if idx ≠ -1 then buff.take idx.toNat else buff

/-! ## Data model -/

/-- Byte order of the host on which the program runs. -/
inductive Endian where
  | little
  | big
  deriving DecidableEq

/-- Go `error` values that can reach the caller of `Open`. -/
inductive Error where
  /-- An error value made by the operating system or by the device-mapper. -/
  | sys (code : Nat)
  /-- Go `io.EOF`. -/
  | eof
  /-- An error made by `fmt.Errorf`, with its message. -/
  | errorf (msg : GoString)
  deriving DecidableEq

/-- Value of an unsigned integer stored in `bs`, least significant byte first. -/
def leValue : List Byte → Nat
  | [] => 0
  | b :: bs => b.val + 256 * leValue bs

/-- Value of the unsigned integer that a host of byte order `host` loads from
the bytes `bs` of memory. -/
def loadUint (host : Endian) (bs : List Byte) : Nat :=
  match host with
  | .little => leValue bs
  | .big => leValue bs.reverse

/-- Go slice expression `data[off : off+width]`, for a slice that is long enough. -/
def field (data : List Byte) (off width : Nat) : List Byte :=
  (data.drop off).take width

/-- Source `type superblock struct`, the named fields (the two blank fields
`_ [6]byte` and `_ [168]byte` cannot be read). -/
structure superblock where
  signature : List Byte
  version : Nat
  hashType : Nat
  uuid : List Byte
  algorithm : List Byte
  dataBlockSize : Nat
  hashBlockSize : Nat
  dataBlocks : Nat
  saltSize : Nat
  salt : List Byte
  deriving DecidableEq

/-- Field widths of `superblock` in declaration order, in bytes. -/
def fieldWidths : List Nat :=
  [8, 4, 4, 16, 32, 4, 4, 8, 2, 6, 256, 168]

/-- Source `sb := (*superblock)(unsafe.Pointer(&data[0]))`: the struct laid over
the buffer. Go places each field at the next multiple of its alignment, which
for these widths is the running sum of the widths before it. -/
def overlay (host : Endian) (data : List Byte) : superblock where
  signature := field data 0 8
  version := loadUint host (field data 8 4)
  hashType := loadUint host (field data 12 4)
  uuid := field data 16 16
  algorithm := field data 32 32
  dataBlockSize := loadUint host (field data 64 4)
  hashBlockSize := loadUint host (field data 68 4)
  dataBlocks := loadUint host (field data 72 8)
  saltSize := loadUint host (field data 80 2)
  salt := field data 88 256

/-- Go `devmapper.VerityTable`, the fields that `Open` sets. -/
structure VerityTable where
  Length : Nat
  HashType : Nat
  DataDevice : GoString
  HashDevice : GoString
  DataBlockSize : Nat
  HashBlockSize : Nat
  NumDataBlocks : Nat
  HashStartBlock : Nat
  Algorithm : GoString
  Salt : GoString
  Digest : GoString
  deriving DecidableEq

/-- Go `devmapper.ReadOnlyFlag` (`DM_READONLY_FLAG`, bit 0). -/
def ReadOnlyFlag : Nat := 1

/-- The arguments of one call `devmapper.CreateAndLoad(name, uuid, flags, table)`. -/
structure CreateRequest where
  name : GoString
  uuid : GoString
  flags : Nat
  table : VerityTable
  deriving DecidableEq

/-- An open file, seen through the one `read` that `Open` performs on it: the
bytes the operating system delivers into the buffer, or its error. -/
structure File where
  chunk : List Byte
  err : Option Error
  deriving DecidableEq

/-- The environment of the program. -/
structure World where
  /-- Byte order of the host. -/
  host : Endian
  /-- Go `os.Open(path)`. -/
  osOpen : GoString → Except Error File
  /-- Go `devmapper.CreateAndLoad`: `none` is a `nil` error. -/
  createAndLoad : CreateRequest → Option Error

/-- The way a call ends: it returns an `error` value (`none` is `nil`), or the
Go run time panics. -/
inductive Result where
  | ret (err : Option Error)
  | panic
  deriving DecidableEq

/-- What a call of `Open` did: the create requests it issued, in order, and the
way it ended. -/
structure Outcome where
  requests : List CreateRequest
  result : Result
  deriving DecidableEq

/-! ## The operations -/

/-- Go `make([]byte, n)`. -/
def make (n : Nat) : List Byte :=
  List.replicate n 0

/-- Go `(*os.File).Read(b)`: the buffer after the call, the count and the error.
On an error the count is 0; a read of 0 bytes into a non-empty buffer is `io.EOF`;
otherwise the first `n` bytes of the buffer are overwritten and the error is `nil`,
also when `n` is less than `len(b)`. -/
def File.Read (f : File) (b : List Byte) : List Byte × Nat × Option Error :=
  match f.err with
  | some e => (b, 0, some e)
  | none =>
    let n := min f.chunk.length b.length
    if n = 0 ∧ 0 < b.length then (b, 0, some Error.eof)
    else (f.chunk.take n ++ b.drop n, n, none)

/-- Source `fmt.Errorf("%s does not contain verity superblock", dataDevice)`. -/
def signatureError (dataDevice : GoString) : Error :=
  Error.errorf (dataDevice ++ lit " does not contain verity superblock")

/-- Source `fmt.Sprintf("CRYPT-VERITY-%s-%s", hex.EncodeToString(sb.uuid[:]), name)`. -/
def deviceUuid (sb : superblock) (name : GoString) : GoString :=
  lit "CRYPT-VERITY-" ++ EncodeToString sb.uuid ++ lit "-" ++ name

/-- Source composite literal `devmapper.VerityTable{...}` of `Open`, once the
slice expression `sb.salt[:sb.saltSize]` has passed its bounds check. -/
def verityTable (sb : superblock) (dataDevice hashDevice digest : GoString) : VerityTable where
  Length := (sb.dataBlocks * 8) % 2 ^ 64
  HashType := sb.version
  DataDevice := dataDevice
  HashDevice := hashDevice
  DataBlockSize := sb.dataBlockSize
  HashBlockSize := sb.hashBlockSize
  NumDataBlocks := sb.dataBlocks
  HashStartBlock := 1
  Algorithm := fixedArrayToString sb.algorithm
  Salt := EncodeToString (sb.salt.take sb.saltSize)
  Digest := digest

/-- Source `Open`. -/
def Open (w : World) (name dataDevice hashDevice digest : GoString) : Outcome :=
  match w.osOpen hashDevice with
  | .error err => ⟨[], .ret (some err)⟩
  | .ok f =>
    match f.Read (make 512) with
    | (_, _, some err) => ⟨[], .ret (some err)⟩
    | (data, _, none) =>
      let sb := overlay w.host data
      if Compare signature sb.signature ≠ 0 then
        ⟨[], .ret (some (signatureError dataDevice))⟩
      else if 256 < sb.saltSize then
        -- `sb.salt[:sb.saltSize]` on a `[256]byte`: slice bounds out of range
        ⟨[], .panic⟩
      else
        let v := verityTable sb dataDevice hashDevice digest
        let uuid := deviceUuid sb name
        let req : CreateRequest := ⟨name, uuid, ReadOnlyFlag, v⟩
        ⟨[req], .ret (w.createAndLoad req)⟩

/-- What a call of `Close` did: the names it asked the device-mapper to remove,
in order, and the way it ended. -/
structure CloseOutcome where
  removals : List GoString
  result : Result
  deriving DecidableEq

/-- Source `Close`; `remove` is Go `devmapper.Remove` (`none` is a `nil` error). -/
def Close (remove : GoString → Option Error) (name : GoString) : CloseOutcome :=
  ⟨[name], .ret (remove name)⟩

/-! ## Layout of the struct -/

/-- Alignment in bytes of each field of `superblock` in declaration order: 1 for
an array of bytes, its own width for an unsigned integer. -/
def fieldAligns : List Nat :=
  [1, 4, 4, 1, 1, 4, 4, 8, 2, 1, 1, 1]

/-- The least multiple of `a` that is at least `n`. -/
def alignUp (n a : Nat) : Nat :=
  (n + a - 1) / a * a

/-- Layout of a Go struct from position `pos` on: each field, given as width
and alignment, starts at the next multiple of its alignment; the result is the
offsets of the fields and the end of the last one. -/
def layoutFrom : Nat → List (Nat × Nat) → List Nat × Nat
  | pos, [] => ([], pos)
  | pos, (width, align) :: rest =>
    let off := alignUp pos align
    let r := layoutFrom (off + width) rest
    (off :: r.1, r.2)

/-- Offsets of the fields of `superblock`. -/
def fieldOffsets : List Nat :=
  (layoutFrom 0 (fieldWidths.zip fieldAligns)).1

/-- Go `unsafe.Sizeof(superblock{})`: the end of the last field, rounded up to
the largest alignment of a field. -/
def structSize : Nat :=
  alignUp (layoutFrom 0 (fieldWidths.zip fieldAligns)).2 (fieldAligns.foldl max 1)

/-- Offsets that the fields would have in a packed layout: the running sums of
the widths. -/
def packedOffsets : List Nat → Nat → List Nat
  | [], _ => []
  | width :: rest, pos => pos :: packedOffsets rest (pos + width)

/-! ## Reference encoding of the on-disk format -/

/-- The `width` bytes that hold `v` least significant byte first, as the
formatting tool writes the numeric fields of the superblock. -/
def leBytes : Nat → Nat → List Byte
  | 0, _ => []
  | width + 1, v => Fin.ofNat (v % 256) :: leBytes width (v / 256)

/-- A 512-byte header that is delivered whole by the read of `hashDevice`. -/
def World.delivers (w : World) (hashDevice : GoString) (header : List Byte) : Prop :=
  w.osOpen hashDevice = .ok ⟨header, none⟩ ∧ header.length = 512

/-- A world with one hash device, whatever the path, whose read delivers
`chunk`, and a device-mapper that accepts every request. -/
def World.ofChunk (host : Endian) (chunk : List Byte) : World where
  host := host
  osOpen := fun _ => .ok ⟨chunk, none⟩
  createAndLoad := fun _ => none

/-- The buffer that `Open` lays the superblock over: the 512 bytes of `data`
after `os.Open(hashDevice)` and `f.Read(data)` both returned a `nil` error. -/
def World.buffer (w : World) (hashDevice : GoString) : Option (List Byte) :=
  match w.osOpen hashDevice with
  | .error _ => none
  | .ok f =>
    match f.Read (make 512) with
    | (_, _, some _) => none
    | (data, _, none) => some data

/-- The request that `Open` sends for the buffer `data`. -/
def requestFor (host : Endian) (data : List Byte)
    (name dataDevice hashDevice digest : GoString) : CreateRequest :=
  ⟨name, deviceUuid (overlay host data) name, ReadOnlyFlag,
    verityTable (overlay host data) dataDevice hashDevice digest⟩

/-- A character of `0123456789abcdef`. -/
def isLowerHex (c : Byte) : Bool :=
  (48 ≤ c.val && c.val ≤ 57) || (97 ≤ c.val && c.val ≤ 102)

/-- The first `n` bytes of `xs` followed by zero bytes: a fixed-size field of
the on-disk layout (`NUL`-padded). -/
def pad (n : Nat) (xs : List Byte) : List Byte :=
  (xs ++ List.replicate (n - xs.length) 0).take n

/-- The 512 bytes that a formatting tool writes for the given field values,
after the on-disk layout: 8-byte magic, 4-byte version, 4-byte hash type,
16-byte UUID, 32-byte algorithm name, 4-byte data block size, 4-byte hash block
size, 8-byte data block count, 2-byte salt size, 6 bytes reserved, 256-byte
salt, 168 bytes reserved; numbers least significant byte first. -/
def formatSuperblock (version hashType : Nat) (uuid : List Byte) (algorithm : GoString)
    (dataBlockSize hashBlockSize dataBlocks saltSize : Nat) (salt : List Byte) : List Byte :=
  signature ++ leBytes 4 version ++ leBytes 4 hashType ++ pad 16 uuid ++ pad 32 algorithm ++
    leBytes 4 dataBlockSize ++ leBytes 4 hashBlockSize ++ leBytes 8 dataBlocks ++
    leBytes 2 saltSize ++ List.replicate 6 0 ++ pad 256 salt ++ List.replicate 168 0

/-- Offsets of the buffer that hold padding, for a host and the buffer itself:
the reserved bytes 82..88 and 344..512, the bytes of the salt array at index
`saltSize` and above, and the bytes of the algorithm array that come after a
zero byte of that array. -/
def isPadding (host : Endian) (data : List Byte) (i : Nat) : Prop :=
  (82 ≤ i ∧ i < 88) ∨ (344 ≤ i ∧ i < 512) ∨
  (88 + (overlay host data).saltSize ≤ i ∧ i < 344) ∨
  (32 ≤ i ∧ i < 64 ∧ (0 : Byte) ∈ field data 32 (i - 32))

instance (host : Endian) (data : List Byte) (i : Nat) : Decidable (isPadding host data i) := by
  unfold isPadding
  infer_instance

/-- The header of the test: a 32768-byte data device of 8 blocks of 4096 bytes,
`sha256`, a salt of 32 bytes. -/
def fixture : List Byte :=
  formatSuperblock 1 1 (List.replicate 16 0xAB) (lit "sha256") 4096 4096 8 32
    (List.replicate 32 0x5C)

/-- The header of the test without a salt. -/
def saltless : List Byte :=
  formatSuperblock 1 1 (List.replicate 16 0xAB) (lit "sha256") 4096 4096 8 0 []

/-- A header whose magic starts with `V` instead of `v` and whose salt size is 300. -/
def wrongMagic : List Byte :=
  (formatSuperblock 1 1 (List.replicate 16 0xAB) (lit "sha256") 4096 4096 8 300
    (List.replicate 256 0x5C)).set 0 0x56

/-- A header with the magic and a salt size of 257. -/
def oversizedSalt : List Byte :=
  formatSuperblock 1 1 (List.replicate 16 0xAB) (lit "sha256") 4096 4096 8 257
    (List.replicate 256 0x5C)

/-- A header for 8 data blocks of 1024 bytes. -/
def smallBlocks : List Byte :=
  formatSuperblock 1 1 (List.replicate 16 0xAB) (lit "sha256") 1024 1024 8 32
    (List.replicate 32 0x5C)

/-- The header of the test with other bytes at offsets 42 (algorithm array,
after `sha256` and its zero byte), 85 and 400 (reserved) and 188 (salt array,
index 100 of a salt of 32 bytes). -/
def repadded : List Byte :=
  (((fixture.set 42 0x41).set 85 0x42).set 188 0x43).set 400 0x44

/-- A world whose `os.Open` gives `r` for every path, and a device-mapper that
accepts every request. -/
def World.ofOpen (host : Endian) (r : Except Error File) : World where
  host := host
  osOpen := fun _ => r
  createAndLoad := fun _ => none

/-- A world with one hash device whose read delivers `chunk`, and a
device-mapper that rejects every request with the error `e`. -/
def World.rejecting (host : Endian) (chunk : List Byte) (e : Error) : World where
  host := host
  osOpen := fun _ => .ok ⟨chunk, none⟩
  createAndLoad := fun _ => some e

/-- A world with the given devices, each a path and the bytes that a read of it
delivers; `os.Open` of another path fails with error 2. -/
def World.ofDevices (host : Endian) (devices : List (GoString × List Byte)) : World where
  host := host
  osOpen := fun path =>
    match devices.lookup path with
    | some chunk => .ok ⟨chunk, none⟩
    | none => .error (.sys 2)
  createAndLoad := fun _ => none

/-- The header of the test with hash type 0 in place of 1. -/
def otherHashType : List Byte :=
  formatSuperblock 1 0 (List.replicate 16 0xAB) (lit "sha256") 4096 4096 8 32
    (List.replicate 32 0x5C)

/-- A header for `2 ^ 61` data blocks of 4096 bytes. -/
def hugeBlocks : List Byte :=
  formatSuperblock 1 1 (List.replicate 16 0xAB) (lit "sha256") 4096 4096 (2 ^ 61) 32
    (List.replicate 32 0x5C)

/-! ## Library lemmas -/

theorem Compare_eq_zero_iff (a b : List Byte) : Compare a b = 0 ↔ a = b := by
  induction a generalizing b with
  | nil => cases b <;> simp [Compare]
  | cons x xs ih =>
    cases b with
    | nil => simp [Compare]
    | cons y ys =>
      unfold Compare
      by_cases h1 : x < y
      · have : x ≠ y := ne_of_lt h1
        simp [h1, this]
      · by_cases h2 : y < x
        · have : x ≠ y := (ne_of_lt h2).symm
          simp [h1, h2, this]
        · have : x = y := le_antisymm (not_lt.mp h2) (not_lt.mp h1)
          simp [h1, h2, this, ih]

theorem IndexByte_ge (xs : List Byte) (c : Byte) : -1 ≤ IndexByte xs c := by
  induction xs with
  | nil => simp [IndexByte]
  | cons x xs ih =>
    unfold IndexByte
    by_cases hx : x = c
    · simp [hx]
    · simp only [hx, if_false]
      split_ifs <;> omega

theorem fixedArrayToString_eq_takeWhile (buff : List Byte) :
    fixedArrayToString buff = buff.takeWhile (fun b => decide (b ≠ 0)) := by
  induction buff with
  | nil => simp [fixedArrayToString, IndexByte]
  | cons x xs ih =>
    have hge := IndexByte_ge xs 0
    unfold fixedArrayToString at ih ⊢
    unfold IndexByte
    by_cases hx : x = 0
    · simp [hx]
    · by_cases hi : IndexByte xs 0 = -1
      · simp only [hi] at ih
        simpa [hx, hi, List.takeWhile_cons] using ih
      · have hnat : (IndexByte xs 0 + 1).toNat = (IndexByte xs 0).toNat + 1 := by omega
        have hne : IndexByte xs 0 + 1 ≠ -1 := by omega
        simp only [hi, ne_eq, not_false_eq_true, if_true] at ih
        simpa [hx, hi, hne, hnat, List.takeWhile_cons] using ih

/-! ## How `Open` branches -/

theorem make_length (n : Nat) : (make n).length = n := by
  simp [make]

theorem File.Read_length (f : File) (data : List Byte) (n : Nat)
    (h : f.Read (make 512) = (data, n, none)) : data.length = 512 := by
  unfold File.Read at h
  cases hf : f.err with
  | some e => simp [hf] at h
  | none =>
    simp only [hf] at h
    split_ifs at h with hz
    · simp at h
    · simp only [Prod.mk.injEq, and_true] at h
      rw [← h.1]
      simp only [List.length_append, List.length_take, List.length_drop, make_length]
      omega

theorem World.buffer_length (w : World) (hashDevice data : List Byte)
    (h : w.buffer hashDevice = some data) : data.length = 512 := by
  unfold World.buffer at h
  cases ho : w.osOpen hashDevice with
  | error e => simp [ho] at h
  | ok f =>
    simp only [ho] at h
    rcases hr : f.Read (make 512) with ⟨d, n, _ | e⟩
    · simp only [hr, Option.some.injEq] at h
      subst h
      exact File.Read_length f d n hr
    · simp [hr] at h

theorem World.buffer_of_delivers (w : World) (hashDevice header : List Byte)
    (h : w.delivers hashDevice header) : w.buffer hashDevice = some header := by
  obtain ⟨ho, hl⟩ := h
  have hm : min header.length (make 512).length = 512 := by
    rw [make_length, hl]; rfl
  have hr : (⟨header, none⟩ : File).Read (make 512) = (header, 512, none) := by
    have h0 : ¬ ((512 : Nat) = 0 ∧ 0 < (make 512).length) := by
      rintro ⟨h, -⟩; exact absurd h (by decide)
    have hd : List.drop 512 (make 512) = [] := by
      apply List.drop_of_length_le; rw [make_length]
    have ht : List.take 512 header = header := by
      apply List.take_of_length_le; rw [hl]
    simp only [File.Read, hm, h0, if_false, hd, ht, List.append_nil]
  simp only [World.buffer, ho, hr]

/-- Every run of `Open` in terms of the buffer. -/
theorem Open_eq (w : World) (name dataDevice hashDevice digest : GoString) :
    Open w name dataDevice hashDevice digest =
      match w.buffer hashDevice with
      | none => ⟨[], (Open w name dataDevice hashDevice digest).result⟩
      | some data =>
        if (overlay w.host data).signature ≠ signature then
          ⟨[], .ret (some (signatureError dataDevice))⟩
        else if 256 < (overlay w.host data).saltSize then ⟨[], .panic⟩
        else
          ⟨[requestFor w.host data name dataDevice hashDevice digest],
            .ret (w.createAndLoad (requestFor w.host data name dataDevice hashDevice digest))⟩ := by
  cases ho : w.osOpen hashDevice with
  | error e => simp only [Open, World.buffer, ho]
  | ok f =>
    rcases hr : f.Read (make 512) with ⟨d, n, _ | e⟩
    · simp only [Open, World.buffer, ho, hr, ne_eq, Compare_eq_zero_iff, requestFor]
      by_cases hs : signature = (overlay w.host d).signature
      · simp [← hs]
      · have hs2 : ¬ (overlay w.host d).signature = signature := fun h => hs h.symm
        simp [hs, hs2]
    · simp only [Open, World.buffer, ho, hr]

theorem Open_of_mismatch (w : World) (name dataDevice hashDevice digest data : GoString)
    (hb : w.buffer hashDevice = some data) (hs : field data 0 8 ≠ signature) :
    Open w name dataDevice hashDevice digest =
      ⟨[], .ret (some (signatureError dataDevice))⟩ := by
  rw [Open_eq, hb]
  have : (overlay w.host data).signature ≠ signature := hs
  simp [this]

theorem Open_of_bad_salt (w : World) (name dataDevice hashDevice digest data : GoString)
    (hb : w.buffer hashDevice = some data) (hs : field data 0 8 = signature)
    (hn : 256 < (overlay w.host data).saltSize) :
    Open w name dataDevice hashDevice digest = ⟨[], .panic⟩ := by
  rw [Open_eq, hb]
  have : (overlay w.host data).signature = signature := hs
  simp [this, hn]

theorem Open_of_accept (w : World) (name dataDevice hashDevice digest data : GoString)
    (hb : w.buffer hashDevice = some data) (hs : field data 0 8 = signature)
    (hn : (overlay w.host data).saltSize ≤ 256) :
    Open w name dataDevice hashDevice digest =
      ⟨[requestFor w.host data name dataDevice hashDevice digest],
        .ret (w.createAndLoad (requestFor w.host data name dataDevice hashDevice digest))⟩ := by
  rw [Open_eq, hb]
  have : (overlay w.host data).signature = signature := hs
  simp [this, not_lt.mpr hn]

/-- A request is issued only for a buffer that was read whole, carries the
signature and has a salt size within the salt array; it is the request for
that buffer. -/
theorem Open_request (w : World) (name dataDevice hashDevice digest : GoString)
    (req : CreateRequest) (h : req ∈ (Open w name dataDevice hashDevice digest).requests) :
    ∃ data, w.buffer hashDevice = some data ∧ field data 0 8 = signature ∧
      (overlay w.host data).saltSize ≤ 256 ∧
      req = requestFor w.host data name dataDevice hashDevice digest := by
  rw [Open_eq] at h
  cases hb : w.buffer hashDevice with
  | none => simp [hb] at h
  | some data =>
    simp only [hb] at h
    by_cases hs : (overlay w.host data).signature = signature
    · by_cases hn : 256 < (overlay w.host data).saltSize
      · simp [hs, hn] at h
      · simp only [hs, ne_eq, not_true_eq_false, if_false, hn, List.mem_singleton] at h
        exact ⟨data, rfl, hs, not_lt.mp hn, h⟩
    · simp [hs] at h

theorem leValue_leBytes (width v : Nat) (h : v < 256 ^ width) :
    leValue (leBytes width v) = v := by
  induction width generalizing v with
  | zero => simp at h; simp [leBytes, leValue, h]
  | succ k ih =>
    have hk : v / 256 < 256 ^ k := by
      rw [Nat.div_lt_iff_lt_mul (by norm_num)]
      rw [pow_succ] at h
      exact h
    simp only [leBytes, leValue, ih _ hk, Fin.ofNat]
    show v % 256 % (255 + 1) + 256 * (v / 256) = v
    omega

theorem fixedArrayToString_padded (alg : List Byte) (k : Nat) (h : (0 : Byte) ∉ alg) :
    fixedArrayToString (alg ++ List.replicate k 0) = alg := by
  rw [fixedArrayToString_eq_takeWhile]
  induction alg with
  | nil => cases k <;> simp [List.replicate_succ]
  | cons a as ih =>
    have ha : a ≠ 0 := fun e => h (by simp [e])
    have has : (0 : Byte) ∉ as := fun e => h (by simp [e])
    simpa [List.takeWhile_cons, ha] using ih has

theorem hextable_digit (k : Fin 16) :
    isLowerHex (hextable.getD k.val 0) = true ∧
      fromHexChar (hextable.getD k.val 0) = some k.val := by
  revert k
  decide

theorem EncodeToString_cons (v : Byte) (vs : List Byte) :
    EncodeToString (v :: vs) =
      hextable.getD (v.val / 16) 0 :: hextable.getD (v.val % 16) 0 :: EncodeToString vs := by
  simp [EncodeToString]

theorem EncodeToString_length (src : List Byte) :
    (EncodeToString src).length = 2 * src.length := by
  induction src with
  | nil => rfl
  | cons v vs ih => simp [EncodeToString_cons, ih]; omega

theorem EncodeToString_lower (src : List Byte) :
    ∀ c ∈ EncodeToString src, isLowerHex c = true := by
  induction src with
  | nil => intro c hc; simp [EncodeToString] at hc
  | cons v vs ih =>
    intro c hc
    rw [EncodeToString_cons] at hc
    have hhi : v.val / 16 < 16 := by omega
    have hlo : v.val % 16 < 16 := by omega
    rcases List.mem_cons.mp hc with rfl | hc
    · exact (hextable_digit ⟨v.val / 16, hhi⟩).1
    rcases List.mem_cons.mp hc with rfl | hc
    · exact (hextable_digit ⟨v.val % 16, hlo⟩).1
    · exact ih c hc

theorem DecodeString_EncodeToString (src : List Byte) :
    DecodeString (EncodeToString src) = some src := by
  induction src with
  | nil => rfl
  | cons v vs ih =>
    have hhi : v.val / 16 < 16 := by omega
    have hlo : v.val % 16 < 16 := by omega
    have h1 := (hextable_digit ⟨v.val / 16, hhi⟩).2
    have h2 := (hextable_digit ⟨v.val % 16, hlo⟩).2
    simp only at h1 h2
    have hv : (Fin.ofNat (v.val / 16 * 16 + v.val % 16) : Byte) = v := by
      apply Fin.ext
      show (v.val / 16 * 16 + v.val % 16) % (255 + 1) = v.val
      omega
    rw [EncodeToString_cons, DecodeString, h1, h2, ih]
    simp only [hv]

theorem field_length (data : List Byte) (off width : Nat) (h : off + width ≤ data.length) :
    (field data off width).length = width := by
  simp only [field, List.length_take, List.length_drop]
  omega

theorem take_field (data : List Byte) (off width n : Nat) (h : n ≤ width) :
    (field data off width).take n = field data off n := by
  simp only [field, List.take_take, min_eq_left h]

theorem field_getElem? (data : List Byte) (off width k : Nat) :
    (field data off width)[k]? = if k < width then data[off + k]? else none := by
  unfold field
  by_cases h : k < width
  · simp [h, List.getElem?_take_of_lt, List.getElem?_drop]
  · simp [h, List.getElem?_take_eq_none (not_lt.mp h)]

theorem field_congr (a b : List Byte) (off width : Nat)
    (h : ∀ i, off ≤ i → i < off + width → a[i]? = b[i]?) :
    field a off width = field b off width := by
  apply List.ext_getElem?
  intro k
  rw [field_getElem?, field_getElem?]
  split_ifs with hk
  · exact h (off + k) (by omega) (by omega)
  · rfl

theorem takeWhile_congr_after_zero (a b : List Byte)
    (h : ∀ k, a[k]? ≠ b[k]? → (0 : Byte) ∈ a.take k) :
    a.takeWhile (fun x => decide (x ≠ 0)) = b.takeWhile (fun x => decide (x ≠ 0)) := by
  induction a generalizing b with
  | nil =>
    cases b with
    | nil => rfl
    | cons y ys => exact absurd (h 0 (by simp)) (by simp)
  | cons x xs ih =>
    cases b with
    | nil => exact absurd (h 0 (by simp)) (by simp)
    | cons y ys =>
      have hxy : x = y := by
        by_contra hne
        exact absurd (h 0 (by simpa using hne)) (by simp)
      subst hxy
      by_cases hx : x = 0
      · simp [List.takeWhile_cons, hx]
      · have := ih ys (fun k hk => by
          have h' := h (k + 1) (by simpa using hk)
          simp only [List.take_succ_cons, List.mem_cons] at h'
          rcases h' with h' | h'
          · exact absurd h'.symm hx
          · exact h')
        simp only [List.takeWhile_cons, this]

theorem overlay_congr_of_padding (host : Endian) (a b : List Byte)
    (hdiff : ∀ i, a[i]? ≠ b[i]? → isPadding host a i) :
    (overlay host a).signature = (overlay host b).signature ∧
    (overlay host a).saltSize = (overlay host b).saltSize ∧
    ((overlay host a).saltSize ≤ 256 →
      ∀ name dataDevice hashDevice digest : GoString,
        requestFor host a name dataDevice hashDevice digest =
          requestFor host b name dataDevice hashDevice digest) := by
  have key : ∀ i, ¬ isPadding host a i → a[i]? = b[i]? := fun i hp =>
    by_contra (fun hne => hp (hdiff i hne))
  have hlow : ∀ off width, off + width ≤ 32 → field a off width = field b off width := by
    intro off width hw
    apply field_congr
    intro i h1 h2
    apply key
    unfold isPadding
    rintro (h | h | h | h) <;> omega
  have hmid : ∀ off width, 64 ≤ off → off + width ≤ 82 →
      field a off width = field b off width := by
    intro off width ho hw
    apply field_congr
    intro i h1 h2
    apply key
    unfold isPadding
    rintro (h | h | h | h) <;> omega
  have hsize : (overlay host a).saltSize = (overlay host b).saltSize := by
    simp only [overlay, hmid 80 2 (by omega) (by omega)]
  have halg : fixedArrayToString (field a 32 32) = fixedArrayToString (field b 32 32) := by
    rw [fixedArrayToString_eq_takeWhile, fixedArrayToString_eq_takeWhile]
    apply takeWhile_congr_after_zero
    intro k hk
    rw [field_getElem?, field_getElem?] at hk
    by_cases hk32 : k < 32
    · simp only [hk32, if_true] at hk
      have hp := hdiff (32 + k) hk
      unfold isPadding at hp
      rcases hp with h | h | h | h
      · omega
      · omega
      · omega
      · rw [take_field a 32 32 k (by omega)]
        have hk' : 32 + k - 32 = k := by omega
        rw [hk'] at h
        exact h.2.2
    · simp [hk32] at hk
  refine ⟨hlow 0 8 (by omega), hsize, ?_⟩
  intro hn name dataDevice hashDevice digest
  have hsalt : field a 88 (overlay host a).saltSize = field b 88 (overlay host a).saltSize := by
    apply field_congr
    intro i h1 h2
    apply key
    unfold isPadding
    rintro (h | h | h | h) <;> omega
  have hsaltA : (overlay host a).salt.take (overlay host a).saltSize =
      field a 88 (overlay host a).saltSize := take_field a 88 256 _ hn
  have hsaltB : (overlay host b).salt.take (overlay host b).saltSize =
      field b 88 (overlay host a).saltSize := by
    rw [← hsize]
    exact take_field b 88 256 _ hn
  have hA : (overlay host a).algorithm = field a 32 32 := rfl
  have hB : (overlay host b).algorithm = field b 32 32 := rfl
  simp only [requestFor, deviceUuid, verityTable, hsaltA, hsaltB, hsalt, hA, hB, halg]
  simp only [overlay, hlow 8 4 (by omega), hlow 16 16 (by omega), hmid 64 4 (by omega) (by omega),
    hmid 68 4 (by omega) (by omega), hmid 72 8 (by omega) (by omega)]

theorem World.buffer_eq_some (w : World) (hashDevice data : List Byte)
    (h : w.buffer hashDevice = some data) :
    ∃ f n, w.osOpen hashDevice = .ok f ∧ f.Read (make 512) = (data, n, none) := by
  unfold World.buffer at h
  cases ho : w.osOpen hashDevice with
  | error e => simp [ho] at h
  | ok f =>
    simp only [ho] at h
    rcases hr : f.Read (make 512) with ⟨d, n, _ | e⟩
    · simp only [hr, Option.some.injEq] at h
      subst h
      exact ⟨f, n, rfl, hr⟩
    · simp [hr] at h

theorem Open_of_request (w : World) (name dataDevice hashDevice digest : GoString)
    (req : CreateRequest) (h : req ∈ (Open w name dataDevice hashDevice digest).requests) :
    Open w name dataDevice hashDevice digest = ⟨[req], .ret (w.createAndLoad req)⟩ := by
  obtain ⟨data, hb, hs, hn, rfl⟩ := Open_request w name dataDevice hashDevice digest req h
  exact Open_of_accept w name dataDevice hashDevice digest data hb hs hn

theorem requestFor_congr (host : Endian) (a b : List Byte)
    (name dataDevice hashDevice digest : GoString)
    (h1 : field a 8 4 = field b 8 4) (h2 : field a 16 16 = field b 16 16)
    (h3 : field a 32 32 = field b 32 32) (h4 : field a 64 4 = field b 64 4)
    (h5 : field a 68 4 = field b 68 4) (h6 : field a 72 8 = field b 72 8)
    (h7 : field a 80 2 = field b 80 2) (h8 : field a 88 256 = field b 88 256) :
    requestFor host a name dataDevice hashDevice digest =
      requestFor host b name dataDevice hashDevice digest := by
  simp only [requestFor, deviceUuid, verityTable, overlay, h1, h2, h3, h4, h5, h6, h7, h8]

theorem leValue_lt (bs : List Byte) : leValue bs < 256 ^ bs.length := by
  induction bs with
  | nil => simp [leValue]
  | cons b bs ih =>
    have hb : b.val < 256 := b.isLt
    simp only [leValue, List.length_cons, pow_succ]
    omega

theorem loadUint_field_lt (host : Endian) (data : List Byte) (off width : Nat) :
    loadUint host (field data off width) < 256 ^ width := by
  have hlen : (field data off width).length ≤ width := by
    simp only [field, List.length_take]
    omega
  have hpow : 256 ^ (field data off width).length ≤ 256 ^ width :=
    Nat.pow_le_pow_right (by norm_num) hlen
  cases host with
  | little => exact lt_of_lt_of_le (leValue_lt _) hpow
  | big =>
    have h := leValue_lt (field data off width).reverse
    rw [List.length_reverse] at h
    exact lt_of_lt_of_le h hpow

/-! ## The claims -/

/-- On a little-endian host, for every 512-byte header that is read whole,
carries the magic, has a salt size of at most 256 and holds the algorithm name
and the numeric fields at offsets 32, 64, 68 and 72 least significant byte
first, `Open` issues one create request whose table has the encoded data block
size, hash block size, data block count and algorithm name. -/
theorem Open_decodes_reference_encoding (w : World)
    (name dataDevice hashDevice digest header algorithm : GoString)
    (dataBlockSize hashBlockSize dataBlocks : Nat)
    (hhost : w.host = Endian.little)
    (hdev : w.delivers hashDevice header)
    (hmagic : field header 0 8 = signature)
    (hsalt : leValue (field header 80 2) ≤ 256)
    (halg0 : (0 : Byte) ∉ algorithm)
    (halg : field header 32 32 = algorithm ++ List.replicate (32 - algorithm.length) 0)
    (hdbs : dataBlockSize < 2 ^ 32) (hdbsE : field header 64 4 = leBytes 4 dataBlockSize)
    (hhbs : hashBlockSize < 2 ^ 32) (hhbsE : field header 68 4 = leBytes 4 hashBlockSize)
    (hblk : dataBlocks < 2 ^ 64) (hblkE : field header 72 8 = leBytes 8 dataBlocks) :
    ∃ req, Open w name dataDevice hashDevice digest = ⟨[req], .ret (w.createAndLoad req)⟩ ∧
      req.table.DataBlockSize = dataBlockSize ∧
      req.table.HashBlockSize = hashBlockSize ∧
      req.table.NumDataBlocks = dataBlocks ∧
      req.table.Algorithm = algorithm := by
  have hb := World.buffer_of_delivers w hashDevice header hdev
  have hn : (overlay w.host header).saltSize ≤ 256 := by
    simpa [overlay, hhost, loadUint] using hsalt
  refine ⟨_, Open_of_accept w name dataDevice hashDevice digest header hb hmagic hn, ?_, ?_, ?_, ?_⟩
  · simp only [requestFor, verityTable, overlay, hhost, loadUint, hdbsE]
    exact leValue_leBytes 4 _ (by simpa using hdbs)
  · simp only [requestFor, verityTable, overlay, hhost, loadUint, hhbsE]
    exact leValue_leBytes 4 _ (by simpa using hhbs)
  · simp only [requestFor, verityTable, overlay, hhost, loadUint, hblkE]
    exact leValue_leBytes 8 _ (by simpa using hblk)
  · simp only [requestFor, verityTable, overlay, halg]
    exact fixedArrayToString_padded _ _ halg0

/-- The header of the test on a little-endian host decodes to the values that
were encoded. -/
theorem Open_decodes_reference_encoding_witness :
    ∃ req, Open (World.ofChunk .little fixture) (lit "test.verity") (lit "/dev/loop0")
        (lit "/dev/loop1") (lit "c0ffee") = ⟨[req], .ret ((World.ofChunk .little fixture).createAndLoad req)⟩ ∧
      req.table.DataBlockSize = 4096 ∧
      req.table.HashBlockSize = 4096 ∧
      req.table.NumDataBlocks = 8 ∧
      req.table.Algorithm = lit "sha256" :=
  Open_decodes_reference_encoding (World.ofChunk .little fixture) (lit "test.verity") (lit "/dev/loop0")
        (lit "/dev/loop1") (lit "c0ffee") fixture (lit "sha256") 4096 4096 8 rfl ⟨rfl, by decide⟩
        (by decide) (by decide) (by decide) (by decide) (by decide) (by decide) (by decide) (by decide)
        (by decide) (by decide)

/-- C1, the code at the failing input: on a big-endian host the header of the
test without a salt meets every condition of the claim with a data block size
of 4096, a hash block size of 4096 and 8 data blocks, and the table of the
create request holds 1048576, 1048576 and 576460752303423488. -/
theorem Open_big_endian_host_misreads_fields :
    (World.ofChunk .big saltless).delivers (lit "/dev/loop1") saltless ∧
    field saltless 0 8 = signature ∧
    leValue (field saltless 80 2) ≤ 256 ∧
    field saltless 32 32 = lit "sha256" ++ List.replicate (32 - (lit "sha256").length) 0 ∧
    field saltless 64 4 = leBytes 4 4096 ∧
    field saltless 68 4 = leBytes 4 4096 ∧
    field saltless 72 8 = leBytes 8 8 ∧
    (Open (World.ofChunk .big saltless) (lit "test.verity") (lit "/dev/loop0")
        (lit "/dev/loop1") (lit "c0ffee")).requests.map
      (fun req => (req.table.DataBlockSize, req.table.HashBlockSize, req.table.NumDataBlocks))
      = [(1048576, 1048576, 576460752303423488)] :=
  ⟨⟨rfl, by decide⟩, by decide, by decide, by decide, by decide, by decide, by decide, by decide⟩

/-- C2: for every 512-byte header that is read whole and whose first 8 bytes
are not the magic, whatever the rest holds, `Open` returns the error
`<dataDevice> does not contain verity superblock` and issues no create request. -/
theorem Open_rejects_wrong_magic (w : World)
    (name dataDevice hashDevice digest header : GoString)
    (hdev : w.delivers hashDevice header)
    (hmagic : header.take 8 ≠ signature) :
    Open w name dataDevice hashDevice digest =
      ⟨[], .ret (some (signatureError dataDevice))⟩ :=
  Open_of_mismatch w name dataDevice hashDevice digest header
    (World.buffer_of_delivers w hashDevice header hdev) hmagic

/-- Witness of C2: one altered magic byte, and a salt size of 300. -/
theorem Open_rejects_wrong_magic_witness :
    leValue (field wrongMagic 80 2) = 300 ∧
    Open (World.ofChunk .little wrongMagic) (lit "test.verity") (lit "/dev/loop0")
        (lit "/dev/loop1") (lit "c0ffee") =
      ⟨[], .ret (some (signatureError (lit "/dev/loop0")))⟩ :=
  ⟨by decide,
    Open_rejects_wrong_magic (World.ofChunk .little wrongMagic) (lit "test.verity")
      (lit "/dev/loop0") (lit "/dev/loop1") (lit "c0ffee") wrongMagic ⟨rfl, by decide⟩
      (by decide)⟩

/-- C3, the code at the failing input: a header with the magic and a salt size
of 257 is read whole; `Open` issues no create request and does not return: the
slice expression `sb.salt[:sb.saltSize]` panics. -/
theorem Open_panics_on_oversized_salt :
    (World.ofChunk .little oversizedSalt).delivers (lit "/dev/loop1") oversizedSalt ∧
    field oversizedSalt 0 8 = signature ∧
    (overlay .little oversizedSalt).saltSize = 257 ∧
    Open (World.ofChunk .little oversizedSalt) (lit "test.verity") (lit "/dev/loop0")
        (lit "/dev/loop1") (lit "c0ffee") = ⟨[], .panic⟩ :=
  ⟨⟨rfl, by decide⟩, by decide, by decide, by decide⟩

/-- C4, the code at the failing input: the read delivers only the first 100
bytes of the header of the test; `Read` reports no error, and `Open` issues a
create request and returns `nil`. -/
theorem Open_accepts_short_read :
    (fixture.take 100).length = 100 ∧
    (Open (World.ofChunk .little (fixture.take 100)) (lit "test.verity") (lit "/dev/loop0")
        (lit "/dev/loop1") (lit "c0ffee")).requests.length = 1 ∧
    (Open (World.ofChunk .little (fixture.take 100)) (lit "test.verity") (lit "/dev/loop0")
        (lit "/dev/loop1") (lit "c0ffee")).result = .ret none :=
  ⟨by decide, by decide, by decide⟩

/-- C5, the code at the failing input: for 8 data blocks of 1024 bytes the
table has a length of 64 sectors, not `8 * (1024 / 512) = 16`. -/
theorem Open_length_ignores_block_size :
    (Open (World.ofChunk .little smallBlocks) (lit "test.verity") (lit "/dev/loop0")
        (lit "/dev/loop1") (lit "c0ffee")).requests.map
      (fun req => (req.table.NumDataBlocks, req.table.DataBlockSize, req.table.Length,
        req.table.NumDataBlocks * (req.table.DataBlockSize / 512)))
      = [(8, 1024, 64, 16)] := by
  decide

/-- C6: the identifier of every create request is `CRYPT-VERITY-`, then 32
characters of `0123456789abcdef` that are the hexadecimal text of the 16 bytes
at offsets 16..32 of the buffer, then `-`, then the name. -/
theorem Open_identifier (w : World) (name dataDevice hashDevice digest : GoString)
    (req : CreateRequest) (h : req ∈ (Open w name dataDevice hashDevice digest).requests) :
    ∃ data hex, w.buffer hashDevice = some data ∧
      req.uuid = lit "CRYPT-VERITY-" ++ hex ++ lit "-" ++ name ∧
      hex = EncodeToString (field data 16 16) ∧
      (field data 16 16).length = 16 ∧
      hex.length = 32 ∧
      (∀ c ∈ hex, isLowerHex c = true) ∧
      DecodeString hex = some (field data 16 16) := by
  obtain ⟨data, hb, -, -, rfl⟩ := Open_request w name dataDevice hashDevice digest req h
  have hl := World.buffer_length w hashDevice data hb
  have h16 : (field data 16 16).length = 16 := field_length data 16 16 (by omega)
  refine ⟨data, EncodeToString (field data 16 16), hb, rfl, rfl, h16, ?_, ?_, ?_⟩
  · rw [EncodeToString_length, h16]
  · exact EncodeToString_lower _
  · exact DecodeString_EncodeToString _

/-- Witness of C6: the header of the test. -/
theorem Open_identifier_witness :
    requestFor .little fixture (lit "test.verity") (lit "/dev/loop0") (lit "/dev/loop1")
        (lit "c0ffee") ∈
      (Open (World.ofChunk .little fixture) (lit "test.verity") (lit "/dev/loop0")
        (lit "/dev/loop1") (lit "c0ffee")).requests ∧
    ∃ data hex, (World.ofChunk .little fixture).buffer (lit "/dev/loop1") = some data ∧
      (requestFor .little fixture (lit "test.verity") (lit "/dev/loop0") (lit "/dev/loop1")
        (lit "c0ffee")).uuid = lit "CRYPT-VERITY-" ++ hex ++ lit "-" ++ lit "test.verity" ∧
      hex = EncodeToString (field data 16 16) ∧
      (field data 16 16).length = 16 ∧
      hex.length = 32 ∧
      (∀ c ∈ hex, isLowerHex c = true) ∧
      DecodeString hex = some (field data 16 16) :=
  ⟨by decide,
    Open_identifier (World.ofChunk .little fixture) (lit "test.verity") (lit "/dev/loop0")
      (lit "/dev/loop1") (lit "c0ffee") _ (by decide)⟩

/-- C7: `fixedArrayToString buff` is a prefix of `buff` without a zero byte, and
every prefix of `buff` without a zero byte is a prefix of it; when `buff` has a
zero byte it is `buff` up to the first one, and otherwise it is `buff`. -/
theorem fixedArrayToString_longest_zero_free_prefix (buff : List Byte) :
    fixedArrayToString buff <+: buff ∧
    (0 : Byte) ∉ fixedArrayToString buff ∧
    (∀ p : List Byte, p <+: buff → (0 : Byte) ∉ p → p <+: fixedArrayToString buff) ∧
    ((0 : Byte) ∈ buff → ∃ rest, buff = fixedArrayToString buff ++ 0 :: rest) ∧
    ((0 : Byte) ∉ buff → fixedArrayToString buff = buff) := by
  rw [fixedArrayToString_eq_takeWhile]
  refine ⟨List.takeWhile_prefix _, ?_, ?_, ?_, ?_⟩
  · intro h
    have := List.mem_takeWhile_imp h
    simp at this
  · intro p hp hz
    obtain ⟨t, rfl⟩ := hp
    induction p with
    | nil => simp
    | cons a p ih =>
      have ha : a ≠ 0 := fun h => hz (by simp [h])
      have hz2 : (0 : Byte) ∉ p := fun h => hz (by simp [h])
      simp only [List.cons_append, List.takeWhile_cons, ha, ne_eq, not_false_eq_true, decide_True, if_true]
      exact List.prefix_cons_inj a |>.mpr (ih hz2)
  · intro h
    induction buff with
    | nil => simp at h
    | cons x xs ih =>
      by_cases hx : x = 0
      · exact ⟨xs, by simp [hx]⟩
      · have hm : (0 : Byte) ∈ xs := by
          rcases List.mem_cons.mp h with h | h
          · exact absurd h.symm hx
          · exact h
        obtain ⟨rest, hr⟩ := ih hm
        refine ⟨rest, ?_⟩
        simp only [List.takeWhile_cons, hx, ne_eq, not_false_eq_true, decide_True, if_true, List.cons_append]
        rw [← hr]
  · intro h
    rw [List.takeWhile_eq_self_iff]
    intro b hb
    simp
    rintro rfl
    exact h hb

/-- C9: two 512-byte headers that are read whole on hosts of the same byte
order and differ only at padding offsets (reserved bytes 82..88 and 344..512,
salt bytes at index `saltSize` and above, algorithm bytes after the first zero
byte) give the same outcome of `Open` for the same arguments and the same
device-mapper: the same branch, the same create request. -/
theorem Open_ignores_padding (w1 w2 : World)
    (name dataDevice hashDevice digest a b : GoString)
    (hhost : w1.host = w2.host) (hdm : w1.createAndLoad = w2.createAndLoad)
    (ha : w1.delivers hashDevice a) (hb : w2.delivers hashDevice b)
    (hdiff : ∀ i, a[i]? ≠ b[i]? → isPadding w1.host a i) :
    Open w1 name dataDevice hashDevice digest = Open w2 name dataDevice hashDevice digest := by
  obtain ⟨hsig, hsize, hreq⟩ := overlay_congr_of_padding w1.host a b hdiff
  rw [Open_eq w1, Open_eq w2, World.buffer_of_delivers w1 hashDevice a ha,
    World.buffer_of_delivers w2 hashDevice b hb, ← hhost, ← hdm]
  simp only [← hsig, ← hsize]
  by_cases hs : (overlay w1.host a).signature = signature
  · by_cases hn : 256 < (overlay w1.host a).saltSize
    · simp [hs, hn]
    · simp [hs, hn, hreq (not_lt.mp hn)]
  · simp [hs]

/-- Witness of C9: the header of the test, and the same header with other bytes
at offsets 42 (algorithm, after `sha256` and its zero byte), 85 and 400
(reserved) and 188 (salt, index 100 of 32). -/
theorem Open_ignores_padding_witness :
    fixture ≠ repadded ∧
    Open (World.ofChunk .little fixture) (lit "test.verity") (lit "/dev/loop0")
        (lit "/dev/loop1") (lit "c0ffee") =
      Open (World.ofChunk .little repadded) (lit "test.verity") (lit "/dev/loop0")
        (lit "/dev/loop1") (lit "c0ffee") :=
  ⟨by decide,
    Open_ignores_padding (World.ofChunk .little fixture) (World.ofChunk .little repadded)
      (lit "test.verity") (lit "/dev/loop0") (lit "/dev/loop1") (lit "c0ffee") fixture repadded
      rfl rfl ⟨rfl, by decide⟩ ⟨rfl, by decide⟩
      (fun i hne => by
        have hi : i = 42 ∨ i = 85 ∨ i = 188 ∨ i = 400 := by
          by_contra hc
          simp only [not_or] at hc
          obtain ⟨h1, h2, h3, h4⟩ := hc
          apply hne
          unfold repadded
          rw [List.getElem?_set_ne (Ne.symm h4), List.getElem?_set_ne (Ne.symm h3),
            List.getElem?_set_ne (Ne.symm h2), List.getElem?_set_ne (Ne.symm h1)]
        rcases hi with rfl | rfl | rfl | rfl <;> decide)⟩

/-- C10: the table of every create request carries the digest, the data device
and the hash device that were passed to `Open`. -/
theorem Open_passes_arguments_through (w : World)
    (name dataDevice hashDevice digest : GoString)
    (req : CreateRequest) (h : req ∈ (Open w name dataDevice hashDevice digest).requests) :
    req.table.Digest = digest ∧ req.table.DataDevice = dataDevice ∧
      req.table.HashDevice = hashDevice := by
  obtain ⟨data, -, -, -, rfl⟩ := Open_request w name dataDevice hashDevice digest req h
  exact ⟨rfl, rfl, rfl⟩

/-- Witness of C10: the header of the test. -/
theorem Open_passes_arguments_through_witness :
    requestFor .little fixture (lit "test.verity") (lit "/dev/loop0") (lit "/dev/loop1")
        (lit "c0ffee") ∈
      (Open (World.ofChunk .little fixture) (lit "test.verity") (lit "/dev/loop0")
        (lit "/dev/loop1") (lit "c0ffee")).requests ∧
    (requestFor .little fixture (lit "test.verity") (lit "/dev/loop0") (lit "/dev/loop1")
        (lit "c0ffee")).table.Digest = lit "c0ffee" ∧
      (requestFor .little fixture (lit "test.verity") (lit "/dev/loop0") (lit "/dev/loop1")
        (lit "c0ffee")).table.DataDevice = lit "/dev/loop0" ∧
      (requestFor .little fixture (lit "test.verity") (lit "/dev/loop0") (lit "/dev/loop1")
        (lit "c0ffee")).table.HashDevice = lit "/dev/loop1" :=
  ⟨by decide,
    Open_passes_arguments_through (World.ofChunk .little fixture) (lit "test.verity")
      (lit "/dev/loop0") (lit "/dev/loop1") (lit "c0ffee") _ (by decide)⟩

/-- C11: the table of every create request has hash start block 1. -/
theorem Open_hash_start_block (w : World) (name dataDevice hashDevice digest : GoString)
    (req : CreateRequest) (h : req ∈ (Open w name dataDevice hashDevice digest).requests) :
    req.table.HashStartBlock = 1 := by
  obtain ⟨data, -, -, -, rfl⟩ := Open_request w name dataDevice hashDevice digest req h
  rfl

/-- Witness of C11: the header of the test. -/
theorem Open_hash_start_block_witness :
    requestFor .little fixture (lit "test.verity") (lit "/dev/loop0") (lit "/dev/loop1")
        (lit "c0ffee") ∈
      (Open (World.ofChunk .little fixture) (lit "test.verity") (lit "/dev/loop0")
        (lit "/dev/loop1") (lit "c0ffee")).requests ∧
    (requestFor .little fixture (lit "test.verity") (lit "/dev/loop0") (lit "/dev/loop1")
        (lit "c0ffee")).table.HashStartBlock = 1 :=
  ⟨by decide,
    Open_hash_start_block (World.ofChunk .little fixture) (lit "test.verity")
      (lit "/dev/loop0") (lit "/dev/loop1") (lit "c0ffee") _ (by decide)⟩

/-- C12: when `Open` issues a create request, it issues that one request and no
other, with the name it was given and the read-only flag, and it returns what
`CreateAndLoad` returned for it, `nil` or the error. -/
theorem Open_issues_one_request (w : World) (name dataDevice hashDevice digest : GoString)
    (req : CreateRequest) (h : req ∈ (Open w name dataDevice hashDevice digest).requests) :
    Open w name dataDevice hashDevice digest = ⟨[req], .ret (w.createAndLoad req)⟩ ∧
      req.name = name ∧ req.flags = ReadOnlyFlag := by
  refine ⟨Open_of_request w name dataDevice hashDevice digest req h, ?_⟩
  obtain ⟨data, -, -, -, rfl⟩ := Open_request w name dataDevice hashDevice digest req h
  exact ⟨rfl, rfl⟩

/-- Witness of C12: the header of the test and a device-mapper that rejects the
request with error 16; `Open` returns that error after the one request. -/
theorem Open_issues_one_request_witness :
    Open (World.rejecting .little fixture (.sys 16)) (lit "test.verity") (lit "/dev/loop0")
        (lit "/dev/loop1") (lit "c0ffee") =
      ⟨[requestFor .little fixture (lit "test.verity") (lit "/dev/loop0") (lit "/dev/loop1")
        (lit "c0ffee")], .ret (some (.sys 16))⟩ ∧
    (requestFor .little fixture (lit "test.verity") (lit "/dev/loop0") (lit "/dev/loop1")
        (lit "c0ffee")).name = lit "test.verity" ∧
    (requestFor .little fixture (lit "test.verity") (lit "/dev/loop0") (lit "/dev/loop1")
        (lit "c0ffee")).flags = ReadOnlyFlag :=
  Open_issues_one_request (World.rejecting .little fixture (.sys 16)) (lit "test.verity")
    (lit "/dev/loop0") (lit "/dev/loop1") (lit "c0ffee") _ (by decide)

/-- C13: when `os.Open` of the hash device fails with `e`, or the read of it
fails with `e`, `Open` returns `e` and issues no create request; and every
create request comes after a read that returned no error and a signature
comparison that found no difference. -/
theorem Open_propagates_read_errors (w : World)
    (name dataDevice hashDevice digest : GoString) :
    (∀ e, w.osOpen hashDevice = .error e →
      Open w name dataDevice hashDevice digest = ⟨[], .ret (some e)⟩) ∧
    (∀ f e, w.osOpen hashDevice = .ok f → (f.Read (make 512)).2.2 = some e →
      Open w name dataDevice hashDevice digest = ⟨[], .ret (some e)⟩) ∧
    (∀ req, req ∈ (Open w name dataDevice hashDevice digest).requests →
      ∃ f data n, w.osOpen hashDevice = .ok f ∧ f.Read (make 512) = (data, n, none) ∧
        Compare signature (overlay w.host data).signature = 0) := by
  refine ⟨?_, ?_, ?_⟩
  · intro e he
    simp only [Open, he]
  · intro f e hf he
    rcases hr : f.Read (make 512) with ⟨d, n, r⟩
    rw [hr] at he
    simp only at he
    subst he
    simp only [Open, hf, hr]
  · intro req hreq
    obtain ⟨data, hb, hs, -, -⟩ := Open_request w name dataDevice hashDevice digest req hreq
    obtain ⟨f, n, hf, hr⟩ := World.buffer_eq_some w hashDevice data hb
    refine ⟨f, data, n, hf, hr, ?_⟩
    rw [Compare_eq_zero_iff]
    exact hs.symm

/-- Witness of C13: a hash device that cannot be opened (error 2), one whose
read fails (error 5), and an empty one (`io.EOF`). -/
theorem Open_propagates_read_errors_witness :
    Open (World.ofOpen .little (.error (.sys 2))) (lit "test.verity") (lit "/dev/loop0")
        (lit "/dev/loop1") (lit "c0ffee") = ⟨[], .ret (some (.sys 2))⟩ ∧
    Open (World.ofOpen .little (.ok ⟨[], some (.sys 5)⟩)) (lit "test.verity") (lit "/dev/loop0")
        (lit "/dev/loop1") (lit "c0ffee") = ⟨[], .ret (some (.sys 5))⟩ ∧
    Open (World.ofOpen .little (.ok ⟨[], none⟩)) (lit "test.verity") (lit "/dev/loop0")
        (lit "/dev/loop1") (lit "c0ffee") = ⟨[], .ret (some .eof)⟩ :=
  ⟨(Open_propagates_read_errors (World.ofOpen .little (.error (.sys 2))) (lit "test.verity")
      (lit "/dev/loop0") (lit "/dev/loop1") (lit "c0ffee")).1 (.sys 2) rfl,
    (Open_propagates_read_errors (World.ofOpen .little (.ok ⟨[], some (.sys 5)⟩))
      (lit "test.verity") (lit "/dev/loop0") (lit "/dev/loop1") (lit "c0ffee")).2.1
      ⟨[], some (.sys 5)⟩ (.sys 5) rfl rfl,
    (Open_propagates_read_errors (World.ofOpen .little (.ok ⟨[], none⟩))
      (lit "test.verity") (lit "/dev/loop0") (lit "/dev/loop1") (lit "c0ffee")).2.1
      ⟨[], none⟩ .eof rfl (by decide)⟩

/-- C14: `Close` asks the device-mapper once to remove the name it was given and
returns what `Remove` returned, `nil` or the error. -/
theorem Close_removes_once (remove : GoString → Option Error) (name : GoString) :
    (Close remove name).removals = [name] ∧
    (Close remove name).result = .ret (remove name) ∧
    (∀ e, remove name = some e → Close remove name = ⟨[name], .ret (some e)⟩) := by
  refine ⟨rfl, rfl, ?_⟩
  intro e he
  simp only [Close, he]

/-- C15, the code at the failing input: the 512 bytes of the header of the test
give version 1, block sizes 4096, 8 data blocks and salt size 32 on a
little-endian host, and 16777216, 1048576, 576460752303423488 and 8192 on a
big-endian host, where `Open` then panics on the salt size. -/
theorem overlay_depends_on_host :
    ((overlay .little fixture).version, (overlay .little fixture).dataBlockSize,
      (overlay .little fixture).hashBlockSize, (overlay .little fixture).dataBlocks,
      (overlay .little fixture).saltSize) = (1, 4096, 4096, 8, 32) ∧
    ((overlay .big fixture).version, (overlay .big fixture).dataBlockSize,
      (overlay .big fixture).hashBlockSize, (overlay .big fixture).dataBlocks,
      (overlay .big fixture).saltSize) =
      (16777216, 1048576, 1048576, 576460752303423488, 8192) ∧
    Open (World.ofChunk .big fixture) (lit "test.verity") (lit "/dev/loop0")
        (lit "/dev/loop1") (lit "c0ffee") = ⟨[], .panic⟩ :=
  ⟨by decide, by decide, by decide⟩

/-- C16: the widths of the fields of `superblock` sum to 512; laid out by
alignment the fields start at 0, 8, 12, 16, 32, 64, 68, 72, 80, 82, 88 and 344,
which are the running sums of the widths, so that no padding is inserted; every
field starts at a multiple of its alignment; the size of the struct is 512, the
length of the buffer that `Open` reads; and the overlay reads each field at its
offset with its width. -/
theorem superblock_layout :
    fieldWidths.sum = 512 ∧
    fieldOffsets = [0, 8, 12, 16, 32, 64, 68, 72, 80, 82, 88, 344] ∧
    fieldOffsets = packedOffsets fieldWidths 0 ∧
    (∀ p ∈ fieldOffsets.zip fieldAligns, p.1 % p.2 = 0) ∧
    (∀ p ∈ fieldWidths.zip fieldAligns, p.2 = 1 ∨ p.2 = p.1) ∧
    structSize = 512 ∧
    (make 512).length = structSize ∧
    (∀ (host : Endian) (data : List Byte), overlay host data =
      { signature := field data (fieldOffsets.getD 0 0) (fieldWidths.getD 0 0)
        version := loadUint host (field data (fieldOffsets.getD 1 0) (fieldWidths.getD 1 0))
        hashType := loadUint host (field data (fieldOffsets.getD 2 0) (fieldWidths.getD 2 0))
        uuid := field data (fieldOffsets.getD 3 0) (fieldWidths.getD 3 0)
        algorithm := field data (fieldOffsets.getD 4 0) (fieldWidths.getD 4 0)
        dataBlockSize := loadUint host (field data (fieldOffsets.getD 5 0) (fieldWidths.getD 5 0))
        hashBlockSize := loadUint host (field data (fieldOffsets.getD 6 0) (fieldWidths.getD 6 0))
        dataBlocks := loadUint host (field data (fieldOffsets.getD 7 0) (fieldWidths.getD 7 0))
        saltSize := loadUint host (field data (fieldOffsets.getD 8 0) (fieldWidths.getD 8 0))
        salt := field data (fieldOffsets.getD 10 0) (fieldWidths.getD 10 0) }) :=
  ⟨by decide, by decide, by decide, by decide, by decide, by decide, by decide,
    fun _ _ => rfl⟩

/-- C17: for every create request whose table has a data block size of 4096 and
fewer than `2 ^ 61` data blocks, the length in sectors times 512 is the number
of data blocks times the data block size. -/
theorem Open_length_covers_data (w : World) (name dataDevice hashDevice digest : GoString)
    (req : CreateRequest) (h : req ∈ (Open w name dataDevice hashDevice digest).requests)
    (hsize : req.table.DataBlockSize = 4096) (hblocks : req.table.NumDataBlocks < 2 ^ 61) :
    req.table.Length * 512 = req.table.NumDataBlocks * req.table.DataBlockSize := by
  obtain ⟨data, -, -, -, rfl⟩ := Open_request w name dataDevice hashDevice digest req h
  rw [hsize]
  have hlen : (requestFor w.host data name dataDevice hashDevice digest).table.Length =
      ((requestFor w.host data name dataDevice hashDevice digest).table.NumDataBlocks * 8)
        % 2 ^ 64 := rfl
  rw [hlen]
  norm_num at hblocks ⊢
  omega

/-- Witness of C17: the header of the test, 8 blocks of 4096 bytes: 64 sectors,
32768 bytes. -/
theorem Open_length_covers_data_witness :
    (requestFor .little fixture (lit "test.verity") (lit "/dev/loop0") (lit "/dev/loop1")
        (lit "c0ffee")).table.Length = 64 ∧
    (requestFor .little fixture (lit "test.verity") (lit "/dev/loop0") (lit "/dev/loop1")
        (lit "c0ffee")).table.Length * 512 = 32768 ∧
    (requestFor .little fixture (lit "test.verity") (lit "/dev/loop0") (lit "/dev/loop1")
        (lit "c0ffee")).table.Length * 512 =
      (requestFor .little fixture (lit "test.verity") (lit "/dev/loop0") (lit "/dev/loop1")
        (lit "c0ffee")).table.NumDataBlocks *
      (requestFor .little fixture (lit "test.verity") (lit "/dev/loop0") (lit "/dev/loop1")
        (lit "c0ffee")).table.DataBlockSize :=
  ⟨by decide, by decide,
    Open_length_covers_data (World.ofChunk .little fixture) (lit "test.verity")
      (lit "/dev/loop0") (lit "/dev/loop1") (lit "c0ffee") _ (by decide) (by decide)
      (by decide)⟩

/-- C18, the code at the failing input: the data device `/dev/loop0` holds a
verity superblock and the hash device `/dev/loop1`, the one that is read, does
not; the error that `Open` returns names `/dev/loop0`. -/
theorem Open_signature_error_names_data_device :
    field fixture 0 8 = signature ∧
    field wrongMagic 0 8 ≠ signature ∧
    Open (World.ofDevices .little [(lit "/dev/loop0", fixture), (lit "/dev/loop1", wrongMagic)])
        (lit "test.verity") (lit "/dev/loop0") (lit "/dev/loop1") (lit "c0ffee") =
      ⟨[], .ret (some (.errorf (lit "/dev/loop0 does not contain verity superblock")))⟩ :=
  ⟨by decide, by decide, by decide⟩

/-- C19: for two buffers that differ only at offsets 12..16, the `hashType`
field, `Open` has the same outcome; when the first carries the signature and a
salt size of at most 256, `Open` issues for both the same single create
request, whose hash type is the version field of the superblock, the unsigned
32-bit integer at offsets 8..12 of the buffer; and no create request has
another hash type. -/
theorem Open_hash_type_is_version (w1 w2 : World)
    (name dataDevice hashDevice digest a b : GoString)
    (hhost : w1.host = w2.host) (hdm : w1.createAndLoad = w2.createAndLoad)
    (ha : w1.buffer hashDevice = some a) (hb : w2.buffer hashDevice = some b)
    (hdiff : ∀ i, a[i]? ≠ b[i]? → 12 ≤ i ∧ i < 16) :
    Open w1 name dataDevice hashDevice digest = Open w2 name dataDevice hashDevice digest ∧
    (field a 0 8 = signature → (overlay w1.host a).saltSize ≤ 256 →
      ∃ req,
        Open w1 name dataDevice hashDevice digest = ⟨[req], .ret (w1.createAndLoad req)⟩ ∧
        Open w2 name dataDevice hashDevice digest = ⟨[req], .ret (w2.createAndLoad req)⟩ ∧
        req.table.HashType = loadUint w1.host (field a 8 4) ∧
        req.table.HashType = (overlay w1.host a).version ∧
        req.table.HashType < 2 ^ 32) ∧
    (∀ req, req ∈ (Open w1 name dataDevice hashDevice digest).requests →
      req.table.HashType = loadUint w1.host (field a 8 4) ∧
      req.table.HashType = (overlay w1.host a).version ∧
      req.table.HashType < 2 ^ 32) := by
  have key : ∀ i, ¬ (12 ≤ i ∧ i < 16) → a[i]? = b[i]? := fun i hp =>
    by_contra (fun hne => hp (hdiff i hne))
  have hlow : ∀ off width, off + width ≤ 12 → field a off width = field b off width := by
    intro off width hw
    apply field_congr
    intro i h1 h2
    exact key i (by omega)
  have hhigh : ∀ off width, 16 ≤ off → field a off width = field b off width := by
    intro off width hw
    apply field_congr
    intro i h1 h2
    exact key i (by omega)
  have hreq := requestFor_congr w1.host a b name dataDevice hashDevice digest
    (hlow 8 4 (by omega)) (hhigh 16 16 (by omega)) (hhigh 32 32 (by omega))
    (hhigh 64 4 (by omega)) (hhigh 68 4 (by omega)) (hhigh 72 8 (by omega))
    (hhigh 80 2 (by omega)) (hhigh 88 256 (by omega))
  have hsig : (overlay w1.host a).signature = (overlay w1.host b).signature :=
    hlow 0 8 (by omega)
  have hsize : (overlay w1.host a).saltSize = (overlay w1.host b).saltSize := by
    simp only [overlay, hhigh 80 2 (by omega)]
  have hlt : loadUint w1.host (field a 8 4) < 2 ^ 32 := by
    have h := loadUint_field_lt w1.host a 8 4
    norm_num at h ⊢
    exact h
  refine ⟨?_, ?_, ?_⟩
  · rw [Open_eq w1, Open_eq w2, ha, hb, ← hhost, ← hdm]
    simp only [← hsig, ← hsize, hreq]
  · intro hs hn
    have hs2 : field b 0 8 = signature := by
      rw [← hlow 0 8 (by omega)]
      exact hs
    have hn2 : (overlay w2.host b).saltSize ≤ 256 := by
      rw [← hhost, ← hsize]
      exact hn
    have h2 := Open_of_accept w2 name dataDevice hashDevice digest b hb hs2 hn2
    rw [← hhost, ← hreq] at h2
    exact ⟨requestFor w1.host a name dataDevice hashDevice digest,
      Open_of_accept w1 name dataDevice hashDevice digest a ha hs hn, h2, rfl, rfl, hlt⟩
  · intro req hreq1
    obtain ⟨data, hd, -, -, rfl⟩ :=
      Open_request w1 name dataDevice hashDevice digest req hreq1
    rw [ha] at hd
    cases hd
    exact ⟨rfl, rfl, hlt⟩

/-- Witness of C19: the header of the test with hash type 1 and with hash type
0, version 1 in both; for both `Open` issues the one request of the header of
the test, whose table has hash type 1. -/
theorem Open_hash_type_is_version_witness :
    ((overlay .little fixture).version, (overlay .little fixture).hashType) = (1, 1) ∧
    ((overlay .little otherHashType).version, (overlay .little otherHashType).hashType)
      = (1, 0) ∧
    Open (World.ofChunk .little fixture) (lit "test.verity") (lit "/dev/loop0")
        (lit "/dev/loop1") (lit "c0ffee") =
      ⟨[requestFor .little fixture (lit "test.verity") (lit "/dev/loop0") (lit "/dev/loop1")
        (lit "c0ffee")], .ret none⟩ ∧
    Open (World.ofChunk .little otherHashType) (lit "test.verity") (lit "/dev/loop0")
        (lit "/dev/loop1") (lit "c0ffee") =
      ⟨[requestFor .little fixture (lit "test.verity") (lit "/dev/loop0") (lit "/dev/loop1")
        (lit "c0ffee")], .ret none⟩ ∧
    (requestFor .little fixture (lit "test.verity") (lit "/dev/loop0") (lit "/dev/loop1")
        (lit "c0ffee")).table.HashType = 1 ∧
    (∃ req,
      Open (World.ofChunk .little fixture) (lit "test.verity") (lit "/dev/loop0")
          (lit "/dev/loop1") (lit "c0ffee") =
        ⟨[req], .ret ((World.ofChunk .little fixture).createAndLoad req)⟩ ∧
      Open (World.ofChunk .little otherHashType) (lit "test.verity") (lit "/dev/loop0")
          (lit "/dev/loop1") (lit "c0ffee") =
        ⟨[req], .ret ((World.ofChunk .little otherHashType).createAndLoad req)⟩ ∧
      req.table.HashType = loadUint (World.ofChunk .little fixture).host (field fixture 8 4) ∧
      req.table.HashType = (overlay (World.ofChunk .little fixture).host fixture).version ∧
      req.table.HashType < 2 ^ 32) :=
  ⟨by decide, by decide, by decide, by decide, by decide,
    (Open_hash_type_is_version (World.ofChunk .little fixture)
      (World.ofChunk .little otherHashType)
      (lit "test.verity") (lit "/dev/loop0") (lit "/dev/loop1") (lit "c0ffee")
      fixture otherHashType rfl rfl (by decide) (by decide)
      (fun i hne => by
        have hset : otherHashType = fixture.set 12 0 := by decide
        by_contra hc
        apply hne
        rw [hset, List.getElem?_set_ne (fun h => hc (by omega))])).2.1
      (by decide) (by decide)⟩

/-- C20: the length of the table of every create request is the number of data
blocks times 8 modulo `2 ^ 64`; it is the product itself exactly when there are
fewer than `2 ^ 61` data blocks, and less than the product otherwise; and `Open`
returns what `CreateAndLoad` returned for that request, with no error of its
own. -/
theorem Open_length_wraps (w : World) (name dataDevice hashDevice digest : GoString)
    (req : CreateRequest) (h : req ∈ (Open w name dataDevice hashDevice digest).requests) :
    req.table.Length = (req.table.NumDataBlocks * 8) % 2 ^ 64 ∧
    (req.table.Length = req.table.NumDataBlocks * 8 ↔ req.table.NumDataBlocks < 2 ^ 61) ∧
    (2 ^ 61 ≤ req.table.NumDataBlocks → req.table.Length < req.table.NumDataBlocks * 8) ∧
    Open w name dataDevice hashDevice digest = ⟨[req], .ret (w.createAndLoad req)⟩ := by
  have hopen := Open_of_request w name dataDevice hashDevice digest req h
  obtain ⟨data, -, -, -, rfl⟩ := Open_request w name dataDevice hashDevice digest req h
  have hlen : (requestFor w.host data name dataDevice hashDevice digest).table.Length =
      ((requestFor w.host data name dataDevice hashDevice digest).table.NumDataBlocks * 8)
        % 2 ^ 64 := rfl
  refine ⟨hlen, ?_, ?_, hopen⟩
  · rw [hlen]
    norm_num
    omega
  · rw [hlen]
    norm_num
    omega

/-- Witness of C20: a header with `2 ^ 61` data blocks; the length is 0 and
`Open` returns `nil`. -/
theorem Open_length_wraps_witness :
    (requestFor .little hugeBlocks (lit "test.verity") (lit "/dev/loop0") (lit "/dev/loop1")
        (lit "c0ffee")).table.NumDataBlocks = 2 ^ 61 ∧
    (requestFor .little hugeBlocks (lit "test.verity") (lit "/dev/loop0") (lit "/dev/loop1")
        (lit "c0ffee")).table.Length = 0 ∧
    Open (World.ofChunk .little hugeBlocks) (lit "test.verity") (lit "/dev/loop0")
        (lit "/dev/loop1") (lit "c0ffee") =
      ⟨[requestFor .little hugeBlocks (lit "test.verity") (lit "/dev/loop0") (lit "/dev/loop1")
        (lit "c0ffee")], .ret none⟩ :=
  ⟨by decide, by decide,
    (Open_length_wraps (World.ofChunk .little hugeBlocks) (lit "test.verity")
      (lit "/dev/loop0") (lit "/dev/loop1") (lit "c0ffee") _ (by decide)).2.2.2⟩

end Verity
